import Mathlib

/-!
Verification development for the `too-heated-rs` harvester
(`src/main.rs`).  The Rust program is embedded shallowly: the network is
a response oracle (`Resp`), page-walk loops become fuel-indexed
recursive functions that also log the requests (and sleeps) they
perform, SQLite `INSERT OR IGNORE` becomes an insert-if-key-absent
operation on an association-list table, and chrono's
`NaiveDateTime::parse_from_str`/`checked_add_days`/`format` for the
`%FT%TZ` format are modelled by an explicit proleptic-Gregorian
day-number conversion (Hinnant's civil-from-days algorithm), a strict
`YYYY-MM-DDTHH:MM:SSZ` parser (4-digit years, leap seconds not
modelled) and a zero-padded formatter.
-/

namespace TooHeated

/-- `struct Repository` of `main.rs` (lines 31-39); `i32` ids become `Int`. -/
structure Repository where
  id : Int
  name : String
  forks_url : String
  stargazers_url : String
  commits_url : String
  issues_url : String
deriving DecidableEq, Repr

/-- `struct Issue` of `main.rs` (lines 41-51). -/
structure Issue where
  id : Int
  title : String
  created_at : String
  repository_id : Option Int
  comments_url : String
  locked : Bool
  active_lock_reason : Option String
  state : String
deriving DecidableEq, Repr

/-- `struct Comment` of `main.rs` (lines 53-59). -/
structure Comment where
  id : Int
  body : String
  created_at : String
  issue_id : Option Int
deriving DecidableEq, Repr

/-- `struct Commit` of `main.rs` (lines 61-64): only the url is decoded. -/
structure Commit where
  url : String
deriving DecidableEq, Repr

/-- Outcome of one HTTP request: transport failure (`Err` from `send()`),
decode failure (`Err` from `.json()`), or a decoded list of items. -/
inductive Resp (α : Type) where
  | transportFail : Resp α
  | decodeFail : Resp α
  | ok : List α → Resp α
deriving DecidableEq

/-- A response that is not a decoded page. -/
def Resp.isFail {α : Type} : Resp α → Bool
  | .ok _ => false
  | _ => true

/-- Observable event of a walk: a page request (with the page number the
loop variable held and the full URL built for it), or a blocking sleep. -/
inductive Ev where
  | req : Nat → String → Ev
  | sleep : Nat → Ev
deriving DecidableEq, Repr

/-- Whether an event is a page request. -/
def Ev.isReq : Ev → Bool
  | .req _ _ => true
  | .sleep _ => false

/-- Rust `str::ends_with`, on the character lists of the strings. -/
def endsWithStr (s sfx : String) : Bool :=
  sfx.toList.isSuffixOf s.toList

/-- Rust `str::strip_suffix`: remove the suffix, or `none` when absent. -/
def strip_suffix (s sfx : String) : Option String :=
  if endsWithStr s sfx then
    some ⟨s.toList.take (s.toList.length - sfx.toList.length)⟩
  else none

/-- `GITUHB_REPO_URL` constant of `main.rs` (line 17, with its typo). -/
def GITUHB_REPO_URL : String := "https://api.github.com/repositories"

end TooHeated

namespace TooHeated

/-! ## Calendar arithmetic (model of chrono for `%FT%TZ`) -/

/-- A proleptic-Gregorian calendar date. -/
structure Date where
  year : Int
  month : Nat
  day : Nat
deriving DecidableEq, Repr

/-- A naive date-time (no zone), as chrono's `NaiveDateTime`. -/
structure DateTime where
  date : Date
  hour : Nat
  minute : Nat
  second : Nat
deriving DecidableEq, Repr

/-- Gregorian leap-year test. -/
def isLeap (y : Int) : Bool :=
  (y % 4 == 0 && y % 100 != 0) || y % 400 == 0

/-- Length of a month in the given year. -/
def daysInMonth (y : Int) (m : Nat) : Nat :=
  if m == 2 then (if isLeap y then 29 else 28)
  else if m == 4 || m == 6 || m == 9 || m == 11 then 30
  else 31

/-- A calendar-valid date. -/
def validDate (d : Date) : Bool :=
  1 ≤ d.month && d.month ≤ 12 && 1 ≤ d.day && d.day ≤ daysInMonth d.year d.month

/-- Days since 1970-01-01 of a civil date (Hinnant's `days_from_civil`,
written with Lean's floor-style `Int` division). -/
def daysFromCivil (dt : Date) : Int :=
  let y : Int := if dt.month ≤ 2 then dt.year - 1 else dt.year
  let m : Int := (dt.month : Int)
  let d : Int := (dt.day : Int)
  let era : Int := y / 400
  let yoe : Int := y - era * 400
  let mp : Int := (m + 9) % 12
  let doy : Int := (153 * mp + 2) / 5 + d - 1
  let doe : Int := yoe * 365 + yoe / 4 - yoe / 100 + doy
  era * 146097 + doe - 719468

/-- Civil date of a days-since-epoch count (Hinnant's `civil_from_days`). -/
def civilFromDays (z0 : Int) : Date :=
  let z : Int := z0 + 719468
  let era : Int := z / 146097
  let doe : Int := z - era * 146097
  let yoe : Int := (doe - doe / 1460 + doe / 36524 - doe / 146096) / 365
  let y : Int := yoe + era * 400
  let doy : Int := doe - (365 * yoe + yoe / 4 - yoe / 100)
  let mp : Int := (5 * doy + 2) / 153
  let d : Int := doy - (153 * mp + 2) / 5 + 1
  let m : Int := if mp < 10 then mp + 3 else mp - 9
  ⟨if m ≤ 2 then y + 1 else y, m.toNat, d.toNat⟩

/-- Shift a naive date-time by a signed number of calendar days, the
semantics of chrono's `checked_add_days`/`checked_sub_days` (time of day
is untouched). -/
def dtAddDays (dt : DateTime) (k : Int) : DateTime :=
  { dt with date := civilFromDays (daysFromCivil dt.date + k) }

/-- Value of a decimal digit character. -/
def digitVal (c : Char) : Option Nat :=
  if c.isDigit then some (c.toNat - 48) else none

/-- Parse exactly two decimal digits. -/
def parse2 : List Char → Option (Nat × List Char)
  | c1 :: c2 :: rest =>
    match digitVal c1, digitVal c2 with
    | some a, some b => some (10 * a + b, rest)
    | _, _ => none
  | _ => none

/-- Parse exactly four decimal digits. -/
def parse4 (cs : List Char) : Option (Nat × List Char) := do
  let (hi, r) ← parse2 cs
  let (lo, r) ← parse2 r
  pure (100 * hi + lo, r)

/-- Consume one expected literal character. -/
def expectChar (c : Char) : List Char → Option (List Char)
  | x :: rest => if x = c then some rest else none
  | [] => none

/-- Model of `NaiveDateTime::parse_from_str(s, "%FT%TZ")`: a strict
`YYYY-MM-DDTHH:MM:SSZ` parse (4-digit year, zero-padded fields, whole
input consumed, calendar-valid date, in-range time; chrono's leap-second
`:60` is not modelled). -/
def parseDT (s : String) : Option DateTime := do
  let (y, r) ← parse4 s.toList
  let r ← expectChar '-' r
  let (mo, r) ← parse2 r
  let r ← expectChar '-' r
  let (d, r) ← parse2 r
  let r ← expectChar 'T' r
  let (h, r) ← parse2 r
  let r ← expectChar ':' r
  let (mi, r) ← parse2 r
  let r ← expectChar ':' r
  let (se, r) ← parse2 r
  let r ← expectChar 'Z' r
  if r = [] ∧ validDate ⟨(y : Int), mo, d⟩ ∧ h ≤ 23 ∧ mi ≤ 59 ∧ se ≤ 59 then
    pure ⟨⟨(y : Int), mo, d⟩, h, mi, se⟩
  else none

/-- Zero-pad a number to two digits. -/
def pad2 (n : Nat) : String :=
  if n < 10 then "0" ++ toString n else toString n

/-- Zero-pad a year to four digits (negative years get a sign, as chrono). -/
def pad4 (y : Int) : String :=
  let n := y.natAbs
  let core :=
    if n < 10 then "000" ++ toString n
    else if n < 100 then "00" ++ toString n
    else if n < 1000 then "0" ++ toString n
    else toString n
  if y < 0 then "-" ++ core else core

/-- Model of chrono's `format("%FT%TZ")`. -/
def formatDT (dt : DateTime) : String :=
  pad4 dt.date.year ++ "-" ++ pad2 dt.date.month ++ "-" ++ pad2 dt.date.day ++
    "T" ++ pad2 dt.hour ++ ":" ++ pad2 dt.minute ++ ":" ++ pad2 dt.second ++ "Z"

/-- `get_since_and_until` of `main.rs` (lines 343-353): parse the anchor,
shift by ±30 calendar days, format both.  `none` models the `unwrap`
panic on an unparsable anchor. -/
def get_since_and_until (input_date : String) : Option (String × String) :=
  match parseDT input_date with
  | none => none
  | some dt =>
    some (formatDT (dtAddDays dt (-30)), formatDT (dtAddDays dt 30))

end TooHeated

namespace TooHeated

/-! ## Filter / stamping (`main.rs` lines 113-124, 168-173) -/

/-- The acceptance predicate of `search_too_heated_issues` (lines
115-119): locked, locked for "too heated", and closed. -/
def is_too_heated (i : Issue) : Bool :=
  i.locked && i.active_lock_reason == some "too heated" && i.state == "closed"

/-- Stamping of the parent repository id onto an issue (lines 120-123). -/
def stampIssue (rid : Int) (i : Issue) : Issue :=
  { i with repository_id := some rid }

/-- Stamping of the parent issue id onto a comment (lines 170-173). -/
def stampComment (iid : Int) (c : Comment) : Comment :=
  { c with issue_id := some iid }

/-! ## The repository listing (`get_repositories`, lines 80-85) -/

/-- `get_repositories`: a single request; a transport failure yields the
empty list, so does a decode failure (`unwrap_or(Vec::new())`).  The
second component counts the requests made (always exactly one). -/
def get_repositories (resp : Resp Repository) : List Repository × Nat :=
  match resp with
  | .ok items => (items, 1)
  | _ => ([], 1)

/-! ## The issue walk (`search_too_heated_issues`, lines 87-130) -/

/-- URL built for one issue page (line 92). -/
def issuesPageUrl (base : String) (page : Nat) : String :=
  base ++ "?page=" ++ toString page ++ "&per_page=100&state=closed"

/-- Body of the `for page in 1..50` loop of `search_too_heated_issues`.
`k` is the number of loop iterations left (`50 - page`), `reqIdx`
indexes the oracle by requests made so far.  A transport or decode
failure hits `continue`, which in a Rust `for` loop moves to the NEXT
page; an empty decoded page breaks; a non-empty page is filtered,
stamped, merged into the set, and followed by a 5-second sleep. -/
def issuesGo (base : String) (oracle : Nat → Resp Issue) (rid : Int) :
    Nat → Nat → Nat → Finset Issue → Finset Issue × List Ev
  | 0, _, _, acc => (acc, [])
  | k + 1, page, reqIdx, acc =>
    match oracle reqIdx with
    | .transportFail =>
      let r := issuesGo base oracle rid k (page + 1) (reqIdx + 1) acc
      (r.1, Ev.req page (issuesPageUrl base page) :: r.2)
    | .decodeFail =>
      let r := issuesGo base oracle rid k (page + 1) (reqIdx + 1) acc
      (r.1, Ev.req page (issuesPageUrl base page) :: r.2)
    | .ok items =>
      if items.isEmpty then (acc, [Ev.req page (issuesPageUrl base page)])
      else
        let acc' := acc ∪ ((items.filter is_too_heated).map (stampIssue rid)).toFinset
        let r := issuesGo base oracle rid k (page + 1) (reqIdx + 1) acc'
        (r.1, Ev.req page (issuesPageUrl base page) :: Ev.sleep 5 :: r.2)

/-- `search_too_heated_issues`: strip `{/number}` from the issues url
(`unwrap` panic, modelled as `none` with an empty event log, when the
suffix is absent), then walk pages 1..49 (`for page in 1..50`). -/
def search_too_heated_issues (repo : Repository) (oracle : Nat → Resp Issue) :
    Option (Finset Issue) × List Ev :=
  match strip_suffix repo.issues_url "\x7b/number\x7d" with
  | none => (none, [])
  | some base =>
    let r := issuesGo base oracle repo.id 49 1 0 ∅
    (some r.1, r.2)

/-! ## The comment walk (`populate_comments`, lines 132-181) -/

/-- URL built for one comment page (line 147). -/
def commentsPageUrl (base : String) (page : Nat) : String :=
  base ++ "?page=" ++ toString page ++ "&per_page=100"

/-- The `loop` of `populate_comments` for one issue.  A transport or
decode failure hits `continue`, which in a Rust `loop` re-enters the
body withOUT the `page += 1` step: the same page is requested again.
An empty decoded page breaks; a non-empty page is stamped with the
issue id, merged, and `page` is incremented.  There is no sleep and no
page ceiling; `fuel` bounds the model's recursion only, `none` meaning
the loop was still running after `fuel` requests. -/
def commentsGo (base : String) (oracle : Nat → Resp Comment) (iid : Int) :
    Nat → Nat → Nat → Finset Comment → Option (Finset Comment) × List Ev
  | 0, _, _, _ => (none, [])
  | fuel + 1, page, reqIdx, acc =>
    match oracle reqIdx with
    | .transportFail =>
      let r := commentsGo base oracle iid fuel page (reqIdx + 1) acc
      (r.1, Ev.req page (commentsPageUrl base page) :: r.2)
    | .decodeFail =>
      let r := commentsGo base oracle iid fuel page (reqIdx + 1) acc
      (r.1, Ev.req page (commentsPageUrl base page) :: r.2)
    | .ok items =>
      if items.isEmpty then (some acc, [Ev.req page (commentsPageUrl base page)])
      else
        let acc' := acc ∪ (items.map (stampComment iid)).toFinset
        let r := commentsGo base oracle iid fuel (page + 1) (reqIdx + 1) acc'
        (r.1, Ev.req page (commentsPageUrl base page) :: r.2)

/-- One issue row of the `SELECT * FROM Issues` result used by
`populate_comments`: its id, its comments url, and (for the model) the
response oracle of its walk. -/
structure IssueRowSrc where
  id_issue : Int
  comments_url : String
  oracle : Nat → Resp Comment

/-- `populate_comments` up to (not including) the final
`store_comments`: walk every issue's comments, page from 1, into one
shared deduplicating set.  `none` when some walk exhausts its fuel. -/
def populate_comments_walk (rows : List IssueRowSrc) (fuel : Nat) :
    Option (Finset Comment) × List Ev :=
  match rows with
  | [] => (some ∅, [])
  | row :: rest =>
    match commentsGo row.comments_url row.oracle row.id_issue fuel 1 0 ∅ with
    | (none, log) => (none, log)
    | (some s, log) =>
      match populate_comments_walk rest fuel with
      | (none, log') => (none, log ++ log')
      | (some s', log') => (some (s ∪ s'), log ++ log')

end TooHeated

namespace TooHeated

/-! ## The commit walk and CSV export (`count_commits_and_forks`, lines 183-271) -/

/-- URL built for one commit page (lines 213 and 243): the `since` and
`until` query values come from the 30-day window around the comment's
creation time. -/
def commitsPageUrl (base : String) (page : Nat) (sinceS untilS : String) : String :=
  base ++ "?page=" ++ toString page ++ "&per_page=100&since=" ++ sinceS ++
    "&until=" ++ untilS

/-- One counting `loop` of `count_commits_and_forks` (lines 212-236 and
242-266).  Failures `continue`, re-requesting the same page; an empty
page breaks returning the accumulated count; a non-empty page adds its
length and advances the page.  No sleep, no page ceiling; `none` when
`fuel` requests were not enough to finish. -/
def commitsGo (base sinceS untilS : String) (oracle : Nat → Resp Commit) :
    Nat → Nat → Nat → Nat → Option Nat × List Ev
  | 0, _, _, _ => (none, [])
  | fuel + 1, page, reqIdx, count =>
    match oracle reqIdx with
    | .transportFail =>
      let r := commitsGo base sinceS untilS oracle fuel page (reqIdx + 1) count
      (r.1, Ev.req page (commitsPageUrl base page sinceS untilS) :: r.2)
    | .decodeFail =>
      let r := commitsGo base sinceS untilS oracle fuel page (reqIdx + 1) count
      (r.1, Ev.req page (commitsPageUrl base page sinceS untilS) :: r.2)
    | .ok items =>
      if items.isEmpty then
        (some count, [Ev.req page (commitsPageUrl base page sinceS untilS)])
      else
        let r := commitsGo base sinceS untilS oracle fuel (page + 1) (reqIdx + 1)
          (count + items.length)
        (r.1, Ev.req page (commitsPageUrl base page sinceS untilS) :: r.2)

/-- One row of the toxic-comment join query of `count_commits_and_forks`
(lines 188-196). -/
structure ToxicRow where
  id_comment : Int
  id_issue : Int
  created_at : String
  commits_url : String
deriving DecidableEq, Repr

/-- How a run of `count_commits_and_forks` can abort: the
`strip_suffix(...).unwrap()` panic, the `get_since_and_until` parse
`unwrap` panic, or (a model artifact) running out of fuel inside a
counting loop. -/
inductive RunErr where
  | panicStrip : RunErr
  | panicParse : RunErr
  | outOfFuel : RunErr
deriving DecidableEq, Repr

/-- The CSV header line written first (line 186). -/
def csvHeader : String := "id_comment,id_issue,commits_before,commits_after\n"

/-- Processing of one toxic-comment row (lines 198-268): strip `{/sha}`
(panic point), write `id_comment,id_issue,`, compute the ±30-day window
(panic point), run the before-window count (`since..created_at`), write
it, run the after-window count (`created_at..until`), write it with a
newline.  Returns the abort cause (if any), the text written for this
row so far, and the requests made. -/
def ccfRow (row : ToxicRow) (oB oA : Nat → Resp Commit) (fuel : Nat) :
    Option RunErr × String × List Ev :=
  match strip_suffix row.commits_url "\x7b/sha\x7d" with
  | none => (some .panicStrip, "", [])
  | some base =>
    let idsPart := toString row.id_comment ++ "," ++ toString row.id_issue ++ ","
    match get_since_and_until row.created_at with
    | none => (some .panicParse, idsPart, [])
    | some su =>
      match commitsGo base su.1 row.created_at oB fuel 1 0 0 with
      | (none, logB) => (some .outOfFuel, idsPart, logB)
      | (some cb, logB) =>
        let beforePart := idsPart ++ toString cb ++ ","
        match commitsGo base row.created_at su.2 oA fuel 1 0 0 with
        | (none, logA) => (some .outOfFuel, beforePart, logB ++ logA)
        | (some ca, logA) =>
          (none, beforePart ++ toString ca ++ "\n", logB ++ logA)

/-- The row loop of `count_commits_and_forks`: rows are processed in
order, each appending its text; an abort (a panic in the source) stops
the run with the text written so far. -/
def ccfGo : List (ToxicRow × (Nat → Resp Commit) × (Nat → Resp Commit)) → Nat →
    Option RunErr × String × List Ev
  | [], _ => (none, "", [])
  | (row, oB, oA) :: rest, fuel =>
    match ccfRow row oB oA fuel with
    | (some e, s, log) => (some e, s, log)
    | (none, s, log) =>
      let r := ccfGo rest fuel
      (r.1, s ++ r.2.1, log ++ r.2.2)

/-- `count_commits_and_forks`: write the CSV header, then process every
row of the toxic-comment join. -/
def count_commits_and_forks
    (rows : List (ToxicRow × (Nat → Resp Commit) × (Nat → Resp Commit)))
    (fuel : Nat) : Option RunErr × String × List Ev :=
  let r := ccfGo rows fuel
  (r.1, csvHeader ++ r.2.1, r.2.2)

/-! ## The sampler (`get_random_repo_url`, lines 273-286) -/

/-- The rejection loop of `get_random_repo_url` (lines 276-283): draw
`rng idx` (masked to the 16-bit space of `rand::random::<u16>()`),
retry while the value is in `seen`.  Returns the accepted id and the
next rng index; `none` when `fuel` draws all collided (the source loop
would still be running). -/
def randomId (rng : Nat → Nat) (seen : Finset Nat) :
    Nat → Nat → Option (Nat × Nat)
  | _, 0 => none
  | idx, fuel + 1 =>
    let id := rng idx % 65536
    if id ∈ seen then randomId rng seen (idx + 1) fuel
    else some (id, idx + 1)

/-- `get_random_repo_url`: accept a fresh id, insert it into `seen`,
and build the probe url.  Returns the url, the updated seen-set and the
next rng index. -/
def get_random_repo_url (rng : Nat → Nat) (seen : Finset Nat) (idx fuel : Nat) :
    Option (String × Finset Nat × Nat) :=
  match randomId rng seen idx fuel with
  | none => none
  | some (id, idx') =>
    some (GITUHB_REPO_URL ++ "?since=" ++ toString id, insert id seen, idx')

/-- `n` successive sampler draws (each drawn id inserted into `seen`
exactly as `get_random_repo_url` does); the list of accepted ids and
the final seen-set, or `none` when some draw ran out of fuel. -/
def drawN (rng : Nat → Nat) : Nat → Finset Nat → Nat → Nat →
    Option (List Nat × Finset Nat)
  | 0, seen, _, _ => some ([], seen)
  | n + 1, seen, idx, fuel =>
    match randomId rng seen idx fuel with
    | none => none
    | some (id, idx') =>
      match drawN rng n (insert id seen) idx' fuel with
      | none => none
      | some (ids, seen') => some (id :: ids, seen')

/-! ## The store (`store_respository` / `store_issues` / `store_comments`,
lines 288-341) -/

/-- A table keyed by the integer primary key. -/
abbrev Table (α : Type) : Type := List (Int × α)

/-- Whether a key is present in a table. -/
def keyPresent {α : Type} (t : Table α) (k : Int) : Bool :=
  (List.any t fun p => p.1 == k)

/-- SQLite `INSERT OR IGNORE` on the primary key: append the row only
when no row with that key exists; never update, never delete. -/
def insertOrIgnore {α : Type} (t : Table α) (k : Int) (v : α) : Table α :=
  if keyPresent t k then t else t ++ [(k, v)]

/-- A `repositories` row (schema of the insert at lines 289-299):
`stars_url` receives the decoded `stargazers_url`; `issues_url` is not
persisted. -/
structure RepoRow where
  name : String
  forks_url : String
  stars_url : String
  commits_url : String
deriving DecidableEq, Repr

/-- An `Issues` row (insert at lines 307-317). -/
structure IssueRow where
  id_repo : Option Int
  created_at : String
  title : String
  comments_url : String
deriving DecidableEq, Repr

/-- A `Comments` row (insert at lines 326-336): `is_toxic` is always
inserted as 0. -/
structure CommentRow where
  id_issue : Option Int
  created_at : String
  text : String
  is_toxic : Nat
deriving DecidableEq, Repr

/-- `store_respository` (source name kept, typo included): one
`INSERT OR IGNORE` of the repository keyed by its id. -/
def store_respository (t : Table RepoRow) (r : Repository) : Table RepoRow :=
  insertOrIgnore t r.id ⟨r.name, r.forks_url, r.stargazers_url, r.commits_url⟩

/-- The body of the `store_issues` loop: one `INSERT OR IGNORE`. -/
def store_issue (t : Table IssueRow) (i : Issue) : Table IssueRow :=
  insertOrIgnore t i.id ⟨i.repository_id, i.created_at, i.title, i.comments_url⟩

/-- `store_issues`: the per-issue insert over an enumeration of the
harvested `HashSet`. -/
def store_issues (t : Table IssueRow) (l : List Issue) : Table IssueRow :=
  l.foldl store_issue t

/-- The body of the `store_comments` loop: one `INSERT OR IGNORE` with
`is_toxic = 0`. -/
def store_comment (t : Table CommentRow) (c : Comment) : Table CommentRow :=
  insertOrIgnore t c.id ⟨c.issue_id, c.created_at, c.body, 0⟩

/-- `store_comments`: the per-comment insert over an enumeration of the
harvested `HashSet`. -/
def store_comments (t : Table CommentRow) (l : List Comment) : Table CommentRow :=
  l.foldl store_comment t

end TooHeated

namespace TooHeated

/-! ## Theorems -/

/-- C3: `get_since_and_until` maps any parsable `%FT%TZ` anchor `t` to
`since = t - 30` calendar days and `until = t + 30` calendar days (the
date component shifted by day-number arithmetic, the time of day kept);
in particular anchor `2023-05-15T00:00:00Z` yields
`since = 2023-04-15T00:00:00Z` and `until = 2023-06-14T00:00:00Z`. -/
theorem c3_since_until_thirty_days :
    get_since_and_until "2023-05-15T00:00:00Z" =
      some ("2023-04-15T00:00:00Z", "2023-06-14T00:00:00Z") ∧
    ∀ s dt, parseDT s = some dt →
      get_since_and_until s =
        some (formatDT (dtAddDays dt (-30)), formatDT (dtAddDays dt 30)) ∧
      (dtAddDays dt (-30)).date = civilFromDays (daysFromCivil dt.date - 30) ∧
      (dtAddDays dt 30).date = civilFromDays (daysFromCivil dt.date + 30) ∧
      (dtAddDays dt (-30)).hour = dt.hour ∧
      (dtAddDays dt (-30)).minute = dt.minute ∧
      (dtAddDays dt (-30)).second = dt.second ∧
      (dtAddDays dt 30).hour = dt.hour ∧
      (dtAddDays dt 30).minute = dt.minute ∧
      (dtAddDays dt 30).second = dt.second := by
  constructor
  · decide
  · intro s dt h
    refine ⟨by simp [get_since_and_until, h], ?_, rfl, rfl, rfl, rfl, rfl, rfl, rfl⟩
    simp [dtAddDays, sub_eq_add_neg]

/-- C3 witness: the theorem's general clause applied at the spec's own
anchor. -/
theorem c3_witness :
    get_since_and_until "2023-05-15T00:00:00Z" =
      some (formatDT (dtAddDays ⟨⟨2023, 5, 15⟩, 0, 0, 0⟩ (-30)),
            formatDT (dtAddDays ⟨⟨2023, 5, 15⟩, 0, 0, 0⟩ 30)) :=
  (c3_since_until_thirty_days.2 "2023-05-15T00:00:00Z"
    ⟨⟨2023, 5, 15⟩, 0, 0, 0⟩ (by decide)).1

/-- C4: the issue acceptance predicate accepts exactly the issues that
are locked, locked for the reason "too heated", and closed; if any of
the three conditions fails the issue is rejected. -/
theorem c4_filter_iff :
    ∀ i : Issue, is_too_heated i = true ↔
      (i.locked = true ∧ i.active_lock_reason = some "too heated" ∧
        i.state = "closed") := by
  intro i
  simp [is_too_heated, Bool.and_eq_true, and_assoc]

end TooHeated

namespace TooHeated

/-- Every issue in the set produced by `issuesGo` is either an element
of the starting accumulator or carries the stamped repository id. -/
theorem issuesGo_stamped (base : String) (oracle : Nat → Resp Issue) (rid : Int) :
    ∀ (k page reqIdx : Nat) (acc : Finset Issue),
      (∀ x ∈ acc, x.repository_id = some rid) →
      ∀ x ∈ (issuesGo base oracle rid k page reqIdx acc).1,
        x.repository_id = some rid := by
  intro k
  induction k with
  | zero => intro page reqIdx acc hacc x hx; exact hacc x hx
  | succ k ih =>
    intro page reqIdx acc hacc x hx
    rcases hresp : oracle reqIdx with _ | _ | items
    · rw [issuesGo, hresp] at hx
      exact ih (page + 1) (reqIdx + 1) acc hacc x hx
    · rw [issuesGo, hresp] at hx
      exact ih (page + 1) (reqIdx + 1) acc hacc x hx
    · rw [issuesGo, hresp] at hx
      by_cases hemp : items.isEmpty
      · simp only [hemp, if_true] at hx
        exact hacc x hx
      · simp only [hemp, if_false] at hx
        refine ih (page + 1) (reqIdx + 1) _ ?_ x hx
        intro y hy
        rcases Finset.mem_union.mp hy with hy | hy
        · exact hacc y hy
        · rcases List.mem_toFinset.mp hy with hy
          rcases List.mem_map.mp hy with ⟨z, _, rfl⟩
          rfl

/-- Every comment in a completed `commentsGo` walk is either an element
of the starting accumulator or carries the stamped issue id. -/
theorem commentsGo_stamped (base : String) (oracle : Nat → Resp Comment) (iid : Int) :
    ∀ (fuel page reqIdx : Nat) (acc : Finset Comment) (s : Finset Comment),
      (∀ x ∈ acc, x.issue_id = some iid) →
      (commentsGo base oracle iid fuel page reqIdx acc).1 = some s →
      ∀ x ∈ s, x.issue_id = some iid := by
  intro fuel
  induction fuel with
  | zero => intro page reqIdx acc s _ h; simp [commentsGo] at h
  | succ fuel ih =>
    intro page reqIdx acc s hacc h x hx
    rcases hresp : oracle reqIdx with _ | _ | items
    · rw [commentsGo, hresp] at h
      exact ih page (reqIdx + 1) acc s hacc h x hx
    · rw [commentsGo, hresp] at h
      exact ih page (reqIdx + 1) acc s hacc h x hx
    · rw [commentsGo, hresp] at h
      by_cases hemp : items.isEmpty
      · simp only [hemp, if_true, Option.some.injEq] at h
        exact hacc x (h ▸ hx)
      · simp only [hemp, if_false] at h
        refine ih (page + 1) (reqIdx + 1) _ s ?_ h x hx
        intro y hy
        rcases Finset.mem_union.mp hy with hy | hy
        · exact hacc y hy
        · rcases List.mem_toFinset.mp hy with hy
          rcases List.mem_map.mp hy with ⟨z, _, rfl⟩
          rfl

end TooHeated

namespace TooHeated

/-- C5: in the issue walk and the comment walk the parent id is stamped
before the set-insert that deduplicates: every item of the produced set
carries the parent id; stamping an item with two different parent ids
yields two distinct set entries, and stamping two items that agree on
every other field with the same parent id yields a single entry. -/
theorem c5_stamping_before_dedup :
    (∀ (repo : Repository) (oracle : Nat → Resp Issue) (s : Finset Issue),
      (search_too_heated_issues repo oracle).1 = some s →
      ∀ x ∈ s, x.repository_id = some repo.id) ∧
    (∀ (base : String) (oracle : Nat → Resp Comment) (iid : Int)
        (fuel : Nat) (s : Finset Comment),
      (commentsGo base oracle iid fuel 1 0 ∅).1 = some s →
      ∀ x ∈ s, x.issue_id = some iid) ∧
    (∀ (r1 r2 : Int) (i : Issue), r1 ≠ r2 →
      stampIssue r1 i ≠ stampIssue r2 i ∧
      ({stampIssue r1 i, stampIssue r2 i} : Finset Issue).card = 2) ∧
    (∀ (r : Int) (i j : Issue), i.id = j.id → i.title = j.title →
      i.created_at = j.created_at → i.comments_url = j.comments_url →
      i.locked = j.locked → i.active_lock_reason = j.active_lock_reason →
      i.state = j.state →
      stampIssue r i = stampIssue r j ∧
      ({stampIssue r i, stampIssue r j} : Finset Issue).card = 1) ∧
    (∀ (r1 r2 : Int) (c : Comment), r1 ≠ r2 →
      stampComment r1 c ≠ stampComment r2 c ∧
      ({stampComment r1 c, stampComment r2 c} : Finset Comment).card = 2) ∧
    (∀ (r : Int) (c d : Comment), c.id = d.id → c.body = d.body →
      c.created_at = d.created_at →
      stampComment r c = stampComment r d ∧
      ({stampComment r c, stampComment r d} : Finset Comment).card = 1) := by
  refine ⟨?_, ?_, ?_, ?_, ?_, ?_⟩
  · intro repo oracle s h x hx
    unfold search_too_heated_issues at h
    rcases hstrip : strip_suffix repo.issues_url "\x7b/number\x7d" with _ | base
    · rw [hstrip] at h; simp at h
    · rw [hstrip] at h
      simp only [Option.some.injEq] at h
      subst h
      exact issuesGo_stamped base oracle repo.id 49 1 0 ∅ (by simp) x hx
  · intro base oracle iid fuel s h x hx
    exact commentsGo_stamped base oracle iid fuel 1 0 ∅ s (by simp) h x hx
  · intro r1 r2 i hne
    have hne' : stampIssue r1 i ≠ stampIssue r2 i := by
      intro h
      exact hne (Option.some.inj (congrArg Issue.repository_id h))
    exact ⟨hne', Finset.card_pair hne'⟩
  · intro r i j h1 h2 h3 h4 h5 h6 h7
    have heq : stampIssue r i = stampIssue r j := by
      unfold stampIssue
      cases i; cases j
      simp only at h1 h2 h3 h4 h5 h6 h7
      simp [h1, h2, h3, h4, h5, h6, h7]
    exact ⟨heq, by simp [heq]⟩
  · intro r1 r2 c hne
    have hne' : stampComment r1 c ≠ stampComment r2 c := by
      intro h
      exact hne (Option.some.inj (congrArg Comment.issue_id h))
    exact ⟨hne', Finset.card_pair hne'⟩
  · intro r c d h1 h2 h3
    have heq : stampComment r c = stampComment r d := by
      unfold stampComment
      cases c; cases d
      simp only at h1 h2 h3
      simp [h1, h2, h3]
    exact ⟨heq, by simp [heq]⟩

/-- C5 witness: the distinct-stamps clause at a concrete issue. -/
theorem c5_witness :
    stampIssue 1 ⟨10, "t", "d", none, "u", true, some "too heated", "closed"⟩ ≠
      stampIssue 2 ⟨10, "t", "d", none, "u", true, some "too heated", "closed"⟩ ∧
    ({stampIssue 1 ⟨10, "t", "d", none, "u", true, some "too heated", "closed"⟩,
      stampIssue 2 ⟨10, "t", "d", none, "u", true, some "too heated", "closed"⟩} :
        Finset Issue).card = 2 :=
  c5_stamping_before_dedup.2.2.1 1 2
    ⟨10, "t", "d", none, "u", true, some "too heated", "closed"⟩ (by decide)

end TooHeated

namespace TooHeated

/-- An id accepted by the sampler's rejection loop was not in `seen`
and lies in the 16-bit space. -/
theorem randomId_fresh (rng : Nat → Nat) (seen : Finset Nat) :
    ∀ (fuel idx : Nat) (id idx' : Nat),
      randomId rng seen idx fuel = some (id, idx') →
      id ∉ seen ∧ id < 65536 := by
  intro fuel
  induction fuel with
  | zero => intro idx id idx' h; simp [randomId] at h
  | succ fuel ih =>
    intro idx id idx' h
    rw [randomId] at h
    by_cases hmem : rng idx % 65536 ∈ seen
    · simp only [hmem, if_true] at h
      exact ih (idx + 1) id idx' h
    · simp only [hmem, if_false, Option.some.injEq, Prod.mk.injEq] at h
      rcases h with ⟨rfl, rfl⟩
      exact ⟨hmem, Nat.mod_lt _ (by decide)⟩

/-- Invariant of `n` successive sampler draws: the accepted ids are
pairwise distinct, none was initially seen, all end up in the final
seen-set, all fit in 16 bits, and the initial seen-set survives. -/
theorem drawN_invariant (rng : Nat → Nat) :
    ∀ (n : Nat) (seen : Finset Nat) (idx fuel : Nat)
      (ids : List Nat) (seen' : Finset Nat),
      drawN rng n seen idx fuel = some (ids, seen') →
      ids.Nodup ∧ ids.length = n ∧ (∀ x ∈ seen, x ∈ seen') ∧
      ∀ id ∈ ids, id ∉ seen ∧ id ∈ seen' ∧ id < 65536 := by
  intro n
  induction n with
  | zero =>
    intro seen idx fuel ids seen' h
    simp only [drawN, Option.some.injEq, Prod.mk.injEq] at h
    rcases h with ⟨rfl, rfl⟩
    simp
  | succ n ih =>
    intro seen idx fuel ids seen' h
    rw [drawN] at h
    split at h
    · exact absurd h (by simp)
    case _ id idx' hdraw =>
      split at h
      · exact absurd h (by simp)
      case _ ids1 seen1 hrec =>
        simp only [Option.some.injEq, Prod.mk.injEq] at h
        rcases h with ⟨rfl, rfl⟩
        rcases randomId_fresh rng seen fuel idx id idx' hdraw with ⟨hfresh, hlt⟩
        rcases ih (insert id seen) idx' fuel ids1 seen1 hrec with
          ⟨hnodup, hlen, hmono, hall⟩
        refine ⟨?_, by simp [hlen], ?_, ?_⟩
        · refine List.nodup_cons.mpr ⟨?_, hnodup⟩
          intro hidin
          exact (hall id hidin).1 (Finset.mem_insert_self id seen)
        · intro x hx
          exact hmono x (Finset.mem_insert_of_mem hx)
        · intro y hy
          rcases List.mem_cons.mp hy with rfl | hy
          · exact ⟨hfresh, hmono y (Finset.mem_insert_self y seen), hlt⟩
          · rcases hall y hy with ⟨hns, hin, hl⟩
            exact ⟨fun hys => hns (Finset.mem_insert_of_mem hys), hin, hl⟩

/-- C6: any sequence of `N` completed sampler draws (`N < 65536`)
starting from the empty seen-set returns `N` pairwise-distinct 16-bit
identifiers, each of which is a member of the seen-set afterwards. -/
theorem c6_sampler_distinct (rng : Nat → Nat) (N idx fuel : Nat)
    (ids : List Nat) (seen' : Finset Nat)
    (hN : N < 65536)
    (hrun : drawN rng N ∅ idx fuel = some (ids, seen')) :
    ids.Nodup ∧ ids.length = N ∧ ∀ id ∈ ids, id ∈ seen' ∧ id < 65536 := by
  rcases drawN_invariant rng N ∅ idx fuel ids seen' hrun with ⟨h1, h2, _, h4⟩
  exact ⟨h1, h2, fun id hid => ⟨(h4 id hid).2.1, (h4 id hid).2.2⟩⟩

/-- C6 witness: three draws with the identity rng accept 0, 1, 2. -/
theorem c6_witness :
    [0, 1, 2].Nodup ∧ [0, 1, 2].length = 3 ∧
      ∀ id ∈ [0, 1, 2],
        id ∈ (insert 2 (insert 1 (insert 0 (∅ : Finset Nat)))) ∧ id < 65536 :=
  c6_sampler_distinct (fun n => n) 3 0 1 [0, 1, 2]
    (insert 2 (insert 1 (insert 0 ∅))) (by decide) rfl

end TooHeated

namespace TooHeated

/-- After an `INSERT OR IGNORE` the key is present. -/
theorem insertOrIgnore_present {α : Type} (t : Table α) (k : Int) (v : α) :
    keyPresent (insertOrIgnore t k v) k = true := by
  unfold insertOrIgnore
  by_cases h : keyPresent t k
  · simp [h]
  · simp only [h, if_false]
    unfold keyPresent at h ⊢
    simp [List.any_append]

/-- `INSERT OR IGNORE` of a present key changes nothing. -/
theorem insertOrIgnore_noop {α : Type} (t : Table α) (k : Int) (v : α)
    (h : keyPresent t k = true) : insertOrIgnore t k v = t := by
  simp [insertOrIgnore, h]

/-- `INSERT OR IGNORE` never disturbs a present key. -/
theorem insertOrIgnore_mono {α : Type} (t : Table α) (k k' : Int) (v : α)
    (h : keyPresent t k' = true) :
    keyPresent (insertOrIgnore t k v) k' = true := by
  unfold insertOrIgnore
  by_cases hp : keyPresent t k
  · simp [hp, h]
  · simp only [hp, if_false]
    unfold keyPresent at h ⊢
    simp [List.any_append, h]

/-- A successful association-list lookup survives appending rows. -/
theorem lookup_append_of_some {α : Type} (k : Int) (v : α) :
    ∀ (t l : Table α), List.lookup k t = some v →
      List.lookup k (t ++ l) = some v := by
  intro t
  induction t with
  | nil => intro l h; simp [List.lookup] at h
  | cons a t ihq =>
    intro l h
    rw [List.cons_append, List.lookup]
    rw [List.lookup] at h
    by_cases hk : (k == a.1)
    · simp only [hk] at h ⊢
      exact h
    · simp only [hk] at h ⊢
      exact ihq l h

/-- `INSERT OR IGNORE` never changes the row an existing key maps to. -/
theorem insertOrIgnore_lookup {α : Type} (t : Table α) (k k' : Int) (v v' : α)
    (h : List.lookup k t = some v) :
    List.lookup k (insertOrIgnore t k' v') = some v := by
  unfold insertOrIgnore
  by_cases hp : keyPresent t k'
  · simp [hp, h]
  · simp only [hp, if_false]
    exact lookup_append_of_some k v t [(k', v')] h

/-- `INSERT OR IGNORE` twice with the same key is one insert. -/
theorem insertOrIgnore_idem {α : Type} (t : Table α) (k : Int) (v w : α) :
    insertOrIgnore (insertOrIgnore t k v) k w = insertOrIgnore t k v :=
  insertOrIgnore_noop _ k w (insertOrIgnore_present t k v)

end TooHeated

namespace TooHeated

/-- A present key stays present through a fold of `INSERT OR IGNORE`s. -/
theorem foldl_insert_mono {α β : Type} (key : β → Int) (row : β → α) :
    ∀ (l : List β) (t : Table α) (k : Int), keyPresent t k = true →
      keyPresent (l.foldl (fun t0 b0 => insertOrIgnore t0 (key b0) (row b0)) t) k
        = true := by
  intro l
  induction l with
  | nil => intro t k h; simpa using h
  | cons a l ih =>
    intro t k h
    rw [List.foldl_cons]
    exact ih _ k (insertOrIgnore_mono t (key a) k (row a) h)

/-- After a fold of `INSERT OR IGNORE`s every folded key is present. -/
theorem foldl_insert_present {α β : Type} (key : β → Int) (row : β → α) :
    ∀ (l : List β) (t : Table α) (b : β), b ∈ l →
      keyPresent (l.foldl (fun t0 b0 => insertOrIgnore t0 (key b0) (row b0)) t)
        (key b) = true := by
  intro l
  induction l with
  | nil => intro t b h; simp at h
  | cons a l ih =>
    intro t b hb
    rw [List.foldl_cons]
    rcases List.mem_cons.mp hb with rfl | hb
    · exact foldl_insert_mono key row l _ (key b)
        (insertOrIgnore_present t (key b) (row b))
    · exact ih _ b hb

/-- A fold of `INSERT OR IGNORE`s over keys that are all present is the
identity. -/
theorem foldl_insert_noop {α β : Type} (key : β → Int) (row : β → α) :
    ∀ (l : List β) (t : Table α), (∀ b ∈ l, keyPresent t (key b) = true) →
      l.foldl (fun t0 b0 => insertOrIgnore t0 (key b0) (row b0)) t = t := by
  intro l
  induction l with
  | nil => intro t _; rfl
  | cons a l ih =>
    intro t h
    rw [List.foldl_cons,
      insertOrIgnore_noop t (key a) (row a) (h a (List.mem_cons_self a l))]
    exact ih t (fun b hb => h b (List.mem_cons_of_mem a hb))

/-- A fold of `INSERT OR IGNORE`s never changes the row of an existing
key. -/
theorem foldl_insert_lookup {α β : Type} (key : β → Int) (row : β → α) :
    ∀ (l : List β) (t : Table α) (k : Int) (v : α), List.lookup k t = some v →
      List.lookup k
        (l.foldl (fun t0 b0 => insertOrIgnore t0 (key b0) (row b0)) t)
        = some v := by
  intro l
  induction l with
  | nil => intro t k v h; simpa using h
  | cons a l ih =>
    intro t k v h
    rw [List.foldl_cons]
    exact ih _ k v (insertOrIgnore_lookup t k (key a) v (row a) h)

/-- Repeating a fold of `INSERT OR IGNORE`s changes nothing. -/
theorem foldl_insert_idem {α β : Type} (key : β → Int) (row : β → α)
    (l : List β) (t : Table α) :
    (l.foldl (fun t0 b0 => insertOrIgnore t0 (key b0) (row b0))
        (l.foldl (fun t0 b0 => insertOrIgnore t0 (key b0) (row b0)) t))
      = l.foldl (fun t0 b0 => insertOrIgnore t0 (key b0) (row b0)) t :=
  foldl_insert_noop key row l _ (fun b hb => foldl_insert_present key row l t b hb)

/-- C9: every persistence operation is insert-if-identifier-absent: a
store whose key is already present leaves the table unchanged, storing
twice equals storing once (also for the whole-set folds), and an
existing row is never updated or deleted. -/
theorem c9_store_append_only :
    (∀ (t : Table RepoRow) (r : Repository), keyPresent t r.id = true →
      store_respository t r = t) ∧
    (∀ (t : Table RepoRow) (r : Repository),
      store_respository (store_respository t r) r = store_respository t r) ∧
    (∀ (t : Table RepoRow) (r : Repository) (k : Int) (v : RepoRow),
      List.lookup k t = some v → List.lookup k (store_respository t r) = some v) ∧
    (∀ (t : Table IssueRow) (i : Issue), keyPresent t i.id = true →
      store_issue t i = t) ∧
    (∀ (t : Table IssueRow) (i : Issue),
      store_issue (store_issue t i) i = store_issue t i) ∧
    (∀ (t : Table IssueRow) (i : Issue) (k : Int) (v : IssueRow),
      List.lookup k t = some v → List.lookup k (store_issue t i) = some v) ∧
    (∀ (t : Table CommentRow) (c : Comment), keyPresent t c.id = true →
      store_comment t c = t) ∧
    (∀ (t : Table CommentRow) (c : Comment),
      store_comment (store_comment t c) c = store_comment t c) ∧
    (∀ (t : Table CommentRow) (c : Comment) (k : Int) (v : CommentRow),
      List.lookup k t = some v → List.lookup k (store_comment t c) = some v) ∧
    (∀ (t : Table IssueRow) (l : List Issue),
      store_issues (store_issues t l) l = store_issues t l) ∧
    (∀ (t : Table CommentRow) (l : List Comment),
      store_comments (store_comments t l) l = store_comments t l) ∧
    (∀ (t : Table IssueRow) (l : List Issue) (k : Int) (v : IssueRow),
      List.lookup k t = some v → List.lookup k (store_issues t l) = some v) ∧
    (∀ (t : Table CommentRow) (l : List Comment) (k : Int) (v : CommentRow),
      List.lookup k t = some v → List.lookup k (store_comments t l) = some v) := by
  refine ⟨?_, ?_, ?_, ?_, ?_, ?_, ?_, ?_, ?_, ?_, ?_, ?_, ?_⟩
  · intro t r h; exact insertOrIgnore_noop t r.id _ h
  · intro t r; exact insertOrIgnore_idem t r.id _ _
  · intro t r k v h; exact insertOrIgnore_lookup t k r.id v _ h
  · intro t i h; exact insertOrIgnore_noop t i.id _ h
  · intro t i; exact insertOrIgnore_idem t i.id _ _
  · intro t i k v h; exact insertOrIgnore_lookup t k i.id v _ h
  · intro t c h; exact insertOrIgnore_noop t c.id _ h
  · intro t c; exact insertOrIgnore_idem t c.id _ _
  · intro t c k v h; exact insertOrIgnore_lookup t k c.id v _ h
  · intro t l
    exact foldl_insert_idem (fun i => i.id)
      (fun i => ⟨i.repository_id, i.created_at, i.title, i.comments_url⟩) l t
  · intro t l
    exact foldl_insert_idem (fun c => c.id)
      (fun c => ⟨c.issue_id, c.created_at, c.body, 0⟩) l t
  · intro t l k v h
    exact foldl_insert_lookup (fun i => i.id)
      (fun i => ⟨i.repository_id, i.created_at, i.title, i.comments_url⟩) l t k v h
  · intro t l k v h
    exact foldl_insert_lookup (fun c => c.id)
      (fun c => ⟨c.issue_id, c.created_at, c.body, 0⟩) l t k v h

/-- C9 witness: storing an already-present repository id changes
nothing, at a concrete table. -/
theorem c9_witness :
    store_respository [((3 : Int), ⟨"n", "f", "s", "c"⟩)]
      ⟨3, "other", "f2", "s2", "c2", "i2"⟩ = [((3 : Int), ⟨"n", "f", "s", "c"⟩)] :=
  c9_store_append_only.1 [((3 : Int), ⟨"n", "f", "s", "c"⟩)]
    ⟨3, "other", "f2", "s2", "c2", "i2"⟩ (by decide)

end TooHeated

namespace TooHeated

/-- C10: `search_too_heated_issues` needs `issues_url` to end in
`\x7b/number\x7d` and the commit counter needs each `commits_url` to end
in `\x7b/sha\x7d`; with the suffix present the `strip_suffix` unwrap
cannot panic, and an endpoint template lacking it panics before any
request of that walk is issued (an empty event log). -/
theorem c10_strip_suffix_preconditions :
    (∀ (repo : Repository) (oracle : Nat → Resp Issue),
      endsWithStr repo.issues_url "\x7b/number\x7d" = false →
      search_too_heated_issues repo oracle = (none, [])) ∧
    (∀ (repo : Repository) (oracle : Nat → Resp Issue),
      endsWithStr repo.issues_url "\x7b/number\x7d" = true →
      (search_too_heated_issues repo oracle).1.isSome = true) ∧
    (∀ (row : ToxicRow) (oB oA : Nat → Resp Commit) (fuel : Nat),
      endsWithStr row.commits_url "\x7b/sha\x7d" = false →
      ccfRow row oB oA fuel = (some RunErr.panicStrip, "", [])) ∧
    (∀ (row : ToxicRow) (oB oA : Nat → Resp Commit) (fuel : Nat),
      endsWithStr row.commits_url "\x7b/sha\x7d" = true →
      (ccfRow row oB oA fuel).1 ≠ some RunErr.panicStrip) := by
  refine ⟨?_, ?_, ?_, ?_⟩
  · intro repo oracle h
    simp [search_too_heated_issues, strip_suffix, h]
  · intro repo oracle h
    simp [search_too_heated_issues, strip_suffix, h]
  · intro row oB oA fuel h
    simp [ccfRow, strip_suffix, h]
  · intro row oB oA fuel h
    unfold ccfRow
    split
    case _ heq =>
      rw [strip_suffix, h] at heq
      simp at heq
    case _ base heq =>
      split
      · simp
      case _ su hsu =>
        split
        case _ logB hB => simp
        case _ cb logB hB =>
          split
          case _ logA hA => simp
          case _ ca logA hA => simp

/-- C10 witness: the no-panic clause at a concrete repository whose
issues url carries the suffix. -/
theorem c10_witness :
    (search_too_heated_issues
      ⟨7, "r", "f", "s", "c", "https://x/issues\x7b/number\x7d"⟩
      (fun _ => Resp.ok [])).1.isSome = true :=
  c10_strip_suffix_preconditions.2.1
    ⟨7, "r", "f", "s", "c", "https://x/issues\x7b/number\x7d"⟩
    (fun _ => Resp.ok []) (by decide)

end TooHeated

namespace TooHeated

/-- A toxic-comment row that is processed without aborting yields the
two window counts and writes exactly the CSV line
`id_comment,id_issue,commits_before,commits_after`. -/
theorem ccfRow_ok (row : ToxicRow) (oB oA : Nat → Resp Commit) (fuel : Nat)
    (h : (ccfRow row oB oA fuel).1 = none) :
    ∃ base sinceS untilS cb ca,
      strip_suffix row.commits_url "\x7b/sha\x7d" = some base ∧
      get_since_and_until row.created_at = some (sinceS, untilS) ∧
      (commitsGo base sinceS row.created_at oB fuel 1 0 0).1 = some cb ∧
      (commitsGo base row.created_at untilS oA fuel 1 0 0).1 = some ca ∧
      (ccfRow row oB oA fuel).2.1 =
        toString row.id_comment ++ "," ++ toString row.id_issue ++ "," ++
          toString cb ++ "," ++ toString ca ++ "\n" := by
  have hrow := h
  unfold ccfRow at hrow
  split at hrow
  case _ heq => simp at hrow
  case _ base heq =>
    split at hrow
    case _ hsu => simp at hrow
    case _ su hsu =>
      split at hrow
      case _ logB hB => simp at hrow
      case _ cb logB hB =>
        split at hrow
        case _ logA hA => simp at hrow
        case _ ca logA hA =>
          refine ⟨base, su.1, su.2, cb, ca, heq, hsu, ?_, ?_, ?_⟩
          · rw [hB]
          · rw [hA]
          · simp only [ccfRow, heq, hsu, hB, hA]

/-- When the whole row loop completes, its output is the concatenation
of the per-row lines and every row completed. -/
theorem ccfGo_ok :
    ∀ (rows : List (ToxicRow × (Nat → Resp Commit) × (Nat → Resp Commit)))
      (fuel : Nat), (ccfGo rows fuel).1 = none →
      (ccfGo rows fuel).2.1 =
        (rows.map fun t => (ccfRow t.1 t.2.1 t.2.2 fuel).2.1).foldr
          (fun a b => a ++ b) "" ∧
      ∀ t ∈ rows, (ccfRow t.1 t.2.1 t.2.2 fuel).1 = none := by
  intro rows
  induction rows with
  | nil => intro fuel h; exact ⟨rfl, by simp⟩
  | cons a rows ih =>
    intro fuel h
    rcases a with ⟨row, oB, oA⟩
    rcases hr : ccfRow row oB oA fuel with ⟨e, s, log⟩
    rcases e with _ | e
    · have hgo : ccfGo ((row, oB, oA) :: rows) fuel =
          ((ccfGo rows fuel).1, s ++ (ccfGo rows fuel).2.1,
            log ++ (ccfGo rows fuel).2.2) := by
        rw [ccfGo, hr]
      rw [hgo] at h
      rcases ih fuel h with ⟨h1, h2⟩
      constructor
      · rw [hgo]
        simp only [List.map_cons, List.foldr_cons]
        rw [h1, hr]
      · intro t ht
        rcases List.mem_cons.mp ht with rfl | ht
        · rw [hr]
        · exact h2 t ht
    · have hgo : ccfGo ((row, oB, oA) :: rows) fuel = (some e, s, log) := by
        rw [ccfGo, hr]
      rw [hgo] at h
      simp at h

end TooHeated

namespace TooHeated

/-- Concrete toxic-comment row used to exercise the CSV export. -/
def rowW : ToxicRow := ⟨1, 2, "2023-05-15T00:00:00Z", "https://x/commits\x7b/sha\x7d"⟩

/-- Before-window oracle for the concrete run: one page of two commits,
then the empty page. -/
def oBW : Nat → Resp Commit := fun n => if n == 0 then .ok [⟨"a"⟩, ⟨"b"⟩] else .ok []

/-- After-window oracle for the concrete run: immediately empty. -/
def oAW : Nat → Resp Commit := fun _ => .ok []

/-- C8: a completed aggregate-and-export run writes the header
`id_comment,id_issue,commits_before,commits_after` followed by exactly
one line per toxic comment, each line being that comment's id, its
issue's id, the page-accumulated commit count of the
`[t-30d, t]` run and that of the `[t, t+30d]` run, in that order; a
concrete run produces exactly that file content. -/
theorem c8_csv_export :
    (∀ rows fuel, (count_commits_and_forks rows fuel).1 = none →
      (count_commits_and_forks rows fuel).2.1 =
        csvHeader ++
          (rows.map fun t => (ccfRow t.1 t.2.1 t.2.2 fuel).2.1).foldr
            (fun a b => a ++ b) "") ∧
    (∀ rows fuel, (count_commits_and_forks rows fuel).1 = none →
      ∀ t ∈ rows, ∃ base sinceS untilS cb ca,
        strip_suffix t.1.commits_url "\x7b/sha\x7d" = some base ∧
        get_since_and_until t.1.created_at = some (sinceS, untilS) ∧
        (commitsGo base sinceS t.1.created_at t.2.1 fuel 1 0 0).1 = some cb ∧
        (commitsGo base t.1.created_at untilS t.2.2 fuel 1 0 0).1 = some ca ∧
        (ccfRow t.1 t.2.1 t.2.2 fuel).2.1 =
          toString t.1.id_comment ++ "," ++ toString t.1.id_issue ++ "," ++
            toString cb ++ "," ++ toString ca ++ "\n") ∧
    (count_commits_and_forks [(rowW, oBW, oAW)] 5).1 = none ∧
    (count_commits_and_forks [(rowW, oBW, oAW)] 5).2.1 =
      "id_comment,id_issue,commits_before,commits_after\n1,2,2,0\n" := by
  refine ⟨?_, ?_, by decide, by decide⟩
  · intro rows fuel h
    exact congrArg (fun s => csvHeader ++ s) (ccfGo_ok rows fuel h).1
  · intro rows fuel h t ht
    exact ccfRow_ok t.1 t.2.1 t.2.2 fuel ((ccfGo_ok rows fuel h).2 t ht)

end TooHeated

namespace TooHeated

/-- A failed request in the comment walk re-enters the loop at the SAME
page (the Rust `continue` skips `page += 1`), consuming the next oracle
response. -/
theorem commentsGo_retry_step (base : String) (oracle : Nat → Resp Comment)
    (iid : Int) (fuel page reqIdx : Nat) (acc : Finset Comment)
    (h : (oracle reqIdx).isFail = true) :
    commentsGo base oracle iid (fuel + 1) page reqIdx acc =
      ((commentsGo base oracle iid fuel page (reqIdx + 1) acc).1,
        Ev.req page (commentsPageUrl base page) ::
          (commentsGo base oracle iid fuel page (reqIdx + 1) acc).2) := by
  rcases hresp : oracle reqIdx with _ | _ | items
  · rw [commentsGo, hresp]
  · rw [commentsGo, hresp]
  · rw [hresp] at h; simp [Resp.isFail] at h

/-- A failed request in a commit-counting loop re-enters the loop at
the SAME page. -/
theorem commitsGo_retry_step (base sinceS untilS : String)
    (oracle : Nat → Resp Commit) (fuel page reqIdx count : Nat)
    (h : (oracle reqIdx).isFail = true) :
    commitsGo base sinceS untilS oracle (fuel + 1) page reqIdx count =
      ((commitsGo base sinceS untilS oracle fuel page (reqIdx + 1) count).1,
        Ev.req page (commitsPageUrl base page sinceS untilS) ::
          (commitsGo base sinceS untilS oracle fuel page (reqIdx + 1) count).2) := by
  rcases hresp : oracle reqIdx with _ | _ | items
  · rw [commitsGo, hresp]
  · rw [commitsGo, hresp]
  · rw [hresp] at h; simp [Resp.isFail] at h

/-- A failed request in the issue walk ADVANCES to the next page (the
Rust `continue` re-enters a `for` loop) and emits no sleep. -/
theorem issuesGo_fail_step (base : String) (oracle : Nat → Resp Issue)
    (rid : Int) (k page reqIdx : Nat) (acc : Finset Issue)
    (h : (oracle reqIdx).isFail = true) :
    issuesGo base oracle rid (k + 1) page reqIdx acc =
      ((issuesGo base oracle rid k (page + 1) (reqIdx + 1) acc).1,
        Ev.req page (issuesPageUrl base page) ::
          (issuesGo base oracle rid k (page + 1) (reqIdx + 1) acc).2) := by
  rcases hresp : oracle reqIdx with _ | _ | items
  · rw [issuesGo, hresp]
  · rw [issuesGo, hresp]
  · rw [hresp] at h; simp [Resp.isFail] at h

/-- A non-empty successfully decoded page of the issue walk merges the
filtered stamped items and sleeps 5 seconds before the next request. -/
theorem issuesGo_ok_step (base : String) (oracle : Nat → Resp Issue)
    (rid : Int) (k page reqIdx : Nat) (acc : Finset Issue) (items : List Issue)
    (h : oracle reqIdx = Resp.ok items) (hne : items.isEmpty = false) :
    issuesGo base oracle rid (k + 1) page reqIdx acc =
      ((issuesGo base oracle rid k (page + 1) (reqIdx + 1)
          (acc ∪ ((items.filter is_too_heated).map (stampIssue rid)).toFinset)).1,
        Ev.req page (issuesPageUrl base page) :: Ev.sleep 5 ::
          (issuesGo base oracle rid k (page + 1) (reqIdx + 1)
            (acc ∪ ((items.filter is_too_heated).map (stampIssue rid)).toFinset)).2) := by
  rw [issuesGo, h]
  simp [hne]

/-- An empty decoded page stops the issue walk with no sleep. -/
theorem issuesGo_break_step (base : String) (oracle : Nat → Resp Issue)
    (rid : Int) (k page reqIdx : Nat) (acc : Finset Issue)
    (h : oracle reqIdx = Resp.ok []) :
    issuesGo base oracle rid (k + 1) page reqIdx acc =
      (acc, [Ev.req page (issuesPageUrl base page)]) := by
  rw [issuesGo, h]
  simp

/-- A non-empty successfully decoded page of the comment walk merges
the stamped comments and advances the page, with no sleep. -/
theorem commentsGo_ok_step (base : String) (oracle : Nat → Resp Comment)
    (iid : Int) (fuel page reqIdx : Nat) (acc : Finset Comment)
    (items : List Comment)
    (h : oracle reqIdx = Resp.ok items) (hne : items.isEmpty = false) :
    commentsGo base oracle iid (fuel + 1) page reqIdx acc =
      ((commentsGo base oracle iid fuel (page + 1) (reqIdx + 1)
          (acc ∪ (items.map (stampComment iid)).toFinset)).1,
        Ev.req page (commentsPageUrl base page) ::
          (commentsGo base oracle iid fuel (page + 1) (reqIdx + 1)
            (acc ∪ (items.map (stampComment iid)).toFinset)).2) := by
  rw [commentsGo, h]
  simp [hne]

/-- The accumulator is contained in the result of a completed comment
walk. -/
theorem commentsGo_mono (base : String) (oracle : Nat → Resp Comment) (iid : Int) :
    ∀ (fuel page reqIdx : Nat) (acc s : Finset Comment),
      (commentsGo base oracle iid fuel page reqIdx acc).1 = some s → acc ⊆ s := by
  intro fuel
  induction fuel with
  | zero => intro page reqIdx acc s h; simp [commentsGo] at h
  | succ fuel ih =>
    intro page reqIdx acc s h
    rcases hresp : oracle reqIdx with _ | _ | items
    · rw [commentsGo, hresp] at h
      exact ih page (reqIdx + 1) acc s h
    · rw [commentsGo, hresp] at h
      exact ih page (reqIdx + 1) acc s h
    · rw [commentsGo, hresp] at h
      by_cases hemp : items.isEmpty
      · simp only [hemp, if_true, Option.some.injEq] at h
        exact h ▸ Finset.Subset.refl acc
      · simp only [hemp, if_false] at h
        exact Finset.Subset.trans Finset.subset_union_left
          (ih (page + 1) (reqIdx + 1) _ s h)

/-- `j` consecutive failures leave the comment walk at the same page,
having consumed `j` oracle responses and logged `j` identical page
requests. -/
theorem commentsGo_retry_many (base : String) (oracle : Nat → Resp Comment)
    (iid : Int) :
    ∀ (j fuel page reqIdx : Nat) (acc : Finset Comment),
      (∀ m, m < j → (oracle (reqIdx + m)).isFail = true) →
      commentsGo base oracle iid (j + fuel) page reqIdx acc =
        ((commentsGo base oracle iid fuel page (reqIdx + j) acc).1,
          List.replicate j (Ev.req page (commentsPageUrl base page)) ++
            (commentsGo base oracle iid fuel page (reqIdx + j) acc).2) := by
  intro j
  induction j with
  | zero =>
    intro fuel page reqIdx acc _
    simp
  | succ j ih =>
    intro fuel page reqIdx acc hfail
    have h0 : (oracle reqIdx).isFail = true := by
      simpa using hfail 0 (Nat.succ_pos j)
    have hstep : j + 1 + fuel = j + fuel + 1 := by omega
    rw [hstep, commentsGo_retry_step base oracle iid (j + fuel) page reqIdx acc h0]
    have hsh : ∀ m, m < j → (oracle (reqIdx + 1 + m)).isFail = true := by
      intro m hm
      have he : reqIdx + 1 + m = reqIdx + (m + 1) := by omega
      rw [he]
      exact hfail (m + 1) (by omega)
    rw [ih fuel page (reqIdx + 1) acc hsh]
    have he2 : reqIdx + 1 + j = reqIdx + (j + 1) := by omega
    rw [he2, List.replicate_succ]
    simp

/-- The comment walk emits only page requests, never a sleep. -/
theorem commentsGo_no_sleep (base : String) (oracle : Nat → Resp Comment)
    (iid : Int) :
    ∀ (fuel page reqIdx : Nat) (acc : Finset Comment),
      ∀ e ∈ (commentsGo base oracle iid fuel page reqIdx acc).2,
        e.isReq = true := by
  intro fuel
  induction fuel with
  | zero => intro page reqIdx acc e he; simp [commentsGo] at he
  | succ fuel ih =>
    intro page reqIdx acc e he
    rcases hresp : oracle reqIdx with _ | _ | items
    · rw [commentsGo, hresp] at he
      rcases List.mem_cons.mp he with rfl | he
      · rfl
      · exact ih page (reqIdx + 1) acc e he
    · rw [commentsGo, hresp] at he
      rcases List.mem_cons.mp he with rfl | he
      · rfl
      · exact ih page (reqIdx + 1) acc e he
    · rw [commentsGo, hresp] at he
      by_cases hemp : items.isEmpty
      · simp only [hemp, if_true, List.mem_singleton] at he
        exact he ▸ rfl
      · simp only [hemp, if_false] at he
        rcases List.mem_cons.mp he with rfl | he
        · rfl
        · exact ih (page + 1) (reqIdx + 1) _ e he

/-- A commit-counting loop emits only page requests, never a sleep. -/
theorem commitsGo_no_sleep (base sinceS untilS : String)
    (oracle : Nat → Resp Commit) :
    ∀ (fuel page reqIdx count : Nat),
      ∀ e ∈ (commitsGo base sinceS untilS oracle fuel page reqIdx count).2,
        e.isReq = true := by
  intro fuel
  induction fuel with
  | zero => intro page reqIdx count e he; simp [commitsGo] at he
  | succ fuel ih =>
    intro page reqIdx count e he
    rcases hresp : oracle reqIdx with _ | _ | items
    · rw [commitsGo, hresp] at he
      rcases List.mem_cons.mp he with rfl | he
      · rfl
      · exact ih page (reqIdx + 1) count e he
    · rw [commitsGo, hresp] at he
      rcases List.mem_cons.mp he with rfl | he
      · rfl
      · exact ih page (reqIdx + 1) count e he
    · rw [commitsGo, hresp] at he
      by_cases hemp : items.isEmpty
      · simp only [hemp, if_true, List.mem_singleton] at he
        exact he ▸ rfl
      · simp only [hemp, if_false] at he
        rcases List.mem_cons.mp he with rfl | he
        · rfl
        · exact ih (page + 1) (reqIdx + 1) _ e he

/-- The issue walk performs at most `k` page requests in `k` remaining
loop iterations. -/
theorem issuesGo_req_bound (base : String) (oracle : Nat → Resp Issue)
    (rid : Int) :
    ∀ (k page reqIdx : Nat) (acc : Finset Issue),
      ((issuesGo base oracle rid k page reqIdx acc).2.countP Ev.isReq) ≤ k := by
  intro k
  induction k with
  | zero => intro page reqIdx acc; simp [issuesGo]
  | succ k ih =>
    intro page reqIdx acc
    rcases hresp : oracle reqIdx with _ | _ | items
    · rw [issuesGo, hresp]
      have h2 := ih (page + 1) (reqIdx + 1) acc
      simp [List.countP_cons, Ev.isReq]
      omega
    · rw [issuesGo, hresp]
      have h2 := ih (page + 1) (reqIdx + 1) acc
      simp [List.countP_cons, Ev.isReq]
      omega
    · rw [issuesGo, hresp]
      by_cases hemp : items.isEmpty
      · simp [hemp, List.countP_cons, Ev.isReq]
      · have h2 := ih (page + 1) (reqIdx + 1)
          (acc ∪ ((items.filter is_too_heated).map (stampIssue rid)).toFinset)
        simp [hemp, List.countP_cons, Ev.isReq]
        omega

end TooHeated

namespace TooHeated

/-- Concrete repository whose issues url carries the stripped suffix. -/
def repoC1 : Repository := ⟨7, "r", "f", "s", "c", "https://x/issues\x7b/number\x7d"⟩

/-- Oracle whose first response is a transport failure, then only empty
pages. -/
def oracleC1 : Nat → Resp Issue := fun n => if n == 0 then .transportFail else .ok []

/-- C1 counterexample: in the issue walk a transport failure on page 1
is followed by a request for page 2 — the walker advances instead of
re-requesting page 1, which is never requested again; and the
repository listing performs no retry at all, returning the empty list
after its single failed request. -/
theorem c1_counterexample :
    oracleC1 0 = Resp.transportFail ∧
    (search_too_heated_issues repoC1 oracleC1).2 =
      [Ev.req 1 (issuesPageUrl "https://x/issues" 1),
       Ev.req 2 (issuesPageUrl "https://x/issues" 2)] ∧
    Ev.req 1 (issuesPageUrl "https://x/issues" 1) ∉
      ((search_too_heated_issues repoC1 oracleC1).2.drop 1) ∧
    get_repositories (Resp.transportFail) = ([], 1) := by
  refine ⟨rfl, by decide, by decide, rfl⟩

/-- C1 (amended): the comment walk and the commit walk re-request the
SAME page after a transport or decode failure (and after any run of
failures the page's stamped items enter the result set once a request
for it succeeds and the walk completes), but the issue walk ADVANCES
past a failed page, and the repository listing performs exactly one
request, yielding the empty list on failure. -/
theorem c1_amended_retry :
    (∀ (base : String) (oracle : Nat → Resp Comment) (iid : Int)
        (fuel page reqIdx : Nat) (acc : Finset Comment),
      (oracle reqIdx).isFail = true →
      commentsGo base oracle iid (fuel + 1) page reqIdx acc =
        ((commentsGo base oracle iid fuel page (reqIdx + 1) acc).1,
          Ev.req page (commentsPageUrl base page) ::
            (commentsGo base oracle iid fuel page (reqIdx + 1) acc).2)) ∧
    (∀ (base sinceS untilS : String) (oracle : Nat → Resp Commit)
        (fuel page reqIdx count : Nat),
      (oracle reqIdx).isFail = true →
      commitsGo base sinceS untilS oracle (fuel + 1) page reqIdx count =
        ((commitsGo base sinceS untilS oracle fuel page (reqIdx + 1) count).1,
          Ev.req page (commitsPageUrl base page sinceS untilS) ::
            (commitsGo base sinceS untilS oracle fuel page (reqIdx + 1) count).2)) ∧
    (∀ (base : String) (oracle : Nat → Resp Issue) (rid : Int)
        (k page reqIdx : Nat) (acc : Finset Issue),
      (oracle reqIdx).isFail = true →
      issuesGo base oracle rid (k + 1) page reqIdx acc =
        ((issuesGo base oracle rid k (page + 1) (reqIdx + 1) acc).1,
          Ev.req page (issuesPageUrl base page) ::
            (issuesGo base oracle rid k (page + 1) (reqIdx + 1) acc).2)) ∧
    (∀ resp : Resp Repository, resp.isFail = true →
      get_repositories resp = ([], 1)) ∧
    (∀ (base : String) (oracle : Nat → Resp Comment) (iid : Int)
        (j fuel page reqIdx : Nat) (acc : Finset Comment),
      (∀ m, m < j → (oracle (reqIdx + m)).isFail = true) →
      commentsGo base oracle iid (j + fuel) page reqIdx acc =
        ((commentsGo base oracle iid fuel page (reqIdx + j) acc).1,
          List.replicate j (Ev.req page (commentsPageUrl base page)) ++
            (commentsGo base oracle iid fuel page (reqIdx + j) acc).2)) ∧
    (∀ (base : String) (oracle : Nat → Resp Comment) (iid : Int)
        (fuel page reqIdx : Nat) (acc : Finset Comment)
        (items : List Comment) (s : Finset Comment) (c : Comment),
      oracle reqIdx = Resp.ok items → items.isEmpty = false → c ∈ items →
      (commentsGo base oracle iid (fuel + 1) page reqIdx acc).1 = some s →
      stampComment iid c ∈ s) := by
  refine ⟨commentsGo_retry_step, commitsGo_retry_step, issuesGo_fail_step,
    ?_, commentsGo_retry_many, ?_⟩
  · intro resp h
    rcases resp with _ | _ | items
    · rfl
    · rfl
    · simp [Resp.isFail] at h
  · intro base oracle iid fuel page reqIdx acc items s c hok hne hc hres
    rw [commentsGo_ok_step base oracle iid fuel page reqIdx acc items hok hne] at hres
    refine commentsGo_mono base oracle iid fuel (page + 1) (reqIdx + 1) _ s hres ?_
    exact Finset.mem_union_right acc
      (List.mem_toFinset.mpr (List.mem_map.mpr ⟨c, hc, rfl⟩))

/-- C1 amended witness: one failed comment-page request retries page 1,
at a concrete oracle. -/
theorem c1_witness :
    commentsGo "u" (fun n => if n == 0 then .transportFail else .ok []) 9
        (3 + 1) 1 0 ∅ =
      ((commentsGo "u" (fun n => if n == 0 then .transportFail else .ok []) 9
          3 1 (0 + 1) ∅).1,
        Ev.req 1 (commentsPageUrl "u" 1) ::
          (commentsGo "u" (fun n => if n == 0 then .transportFail else .ok []) 9
            3 1 (0 + 1) ∅).2) :=
  c1_amended_retry.1 "u" (fun n => if n == 0 then .transportFail else .ok []) 9
    3 1 0 ∅ (by decide)

end TooHeated

namespace TooHeated

/-- Oracle returning 55 non-empty comment pages, then empty pages. -/
def oracleC2 : Nat → Resp Comment :=
  fun n => if n < 55 then .ok [⟨1, "b", "t", none⟩] else .ok []

/-- C2 counterexample: a comment walk whose oracle never fails (a pure
success path) completes after 56 page requests — there is no 50-page
ceiling in the comment (or commit) walk. -/
theorem c2_counterexample :
    (∀ n, (oracleC2 n).isFail = false) ∧
    (commentsGo "u" oracleC2 9 100 1 0 ∅).1.isSome = true ∧
    (commentsGo "u" oracleC2 9 100 1 0 ∅).2.length = 56 ∧
    ((commentsGo "u" oracleC2 9 100 1 0 ∅).2.all Ev.isReq) = true ∧
    50 < (commentsGo "u" oracleC2 9 100 1 0 ∅).2.length := by
  refine ⟨?_, by decide, by decide, by decide, by decide⟩
  intro n
  unfold oracleC2
  split <;> rfl

/-- Oracle returning 55 non-empty commit pages, then empty pages. -/
def oracleC2commits : Nat → Resp Commit :=
  fun n => if n < 55 then .ok [⟨"c"⟩] else .ok []

/-- C2 (amended): only the issue walk is page-bounded — it performs at
most 49 page requests (Rust `for page in 1..50`); the comment and
commit walks have no page ceiling (a success-path comment walk and a
success-path commit walk each perform 56 requests here, with the
commit oracle never failing), and the repository listing performs
exactly one request. -/
theorem c2_amended_page_bound :
    (∀ (base : String) (oracle : Nat → Resp Issue) (rid : Int)
        (k page reqIdx : Nat) (acc : Finset Issue),
      ((issuesGo base oracle rid k page reqIdx acc).2.countP Ev.isReq) ≤ k) ∧
    (∀ (repo : Repository) (oracle : Nat → Resp Issue),
      ((search_too_heated_issues repo oracle).2.countP Ev.isReq) ≤ 49) ∧
    ((commentsGo "u" oracleC2 9 100 1 0 ∅).1.isSome = true ∧
      50 < ((commentsGo "u" oracleC2 9 100 1 0 ∅).2.countP Ev.isReq)) ∧
    ((∀ n, (oracleC2commits n).isFail = false) ∧
      (commitsGo "u" "s" "t" oracleC2commits 100 1 0 0).1.isSome = true ∧
      50 < ((commitsGo "u" "s" "t" oracleC2commits 100 1 0 0).2.countP Ev.isReq)) ∧
    (∀ resp : Resp Repository, (get_repositories resp).2 = 1) := by
  refine ⟨issuesGo_req_bound, ?_, ⟨by decide, by decide⟩,
    ⟨?_, by decide, by decide⟩, ?_⟩
  · intro repo oracle
    unfold search_too_heated_issues
    split
    · simp
    case _ base heq =>
      simpa using issuesGo_req_bound base oracle repo.id 49 1 0 ∅
  · intro n
    unfold oracleC2commits
    split <;> rfl
  · intro resp
    rcases resp with _ | _ | items <;> rfl

/-- C2 amended witness: the issue-walk bound at a concrete oracle. -/
theorem c2_witness :
    ((search_too_heated_issues repoC1 oracleC1).2.countP Ev.isReq) ≤ 49 :=
  c2_amended_page_bound.2.1 repoC1 oracleC1

/-- Oracle returning one non-empty comment page, then empty pages. -/
def oracleC7 : Nat → Resp Comment :=
  fun n => if n == 0 then .ok [⟨2, "b", "t", none⟩] else .ok []

/-- C7 counterexample: the comment walk requests page 2 immediately
after page 1 with no sleep event in between — the fixed 5-unit delay
exists only in the issue walk. -/
theorem c7_counterexample :
    (commentsGo "u" oracleC7 9 5 1 0 ∅).2 =
      [Ev.req 1 (commentsPageUrl "u" 1), Ev.req 2 (commentsPageUrl "u" 2)] ∧
    Ev.sleep 5 ∉ (commentsGo "u" oracleC7 9 5 1 0 ∅).2 := by
  exact ⟨by decide, by decide⟩

/-- C7 (amended): the comment and commit walks emit no sleep at all;
the issue walk sleeps 5 time units after each non-empty successfully
decoded page (before the next request), and emits no sleep after a
failed page or after the final empty page. -/
theorem c7_amended_sleep :
    (∀ (base : String) (oracle : Nat → Resp Comment) (iid : Int)
        (fuel page reqIdx : Nat) (acc : Finset Comment),
      ∀ e ∈ (commentsGo base oracle iid fuel page reqIdx acc).2,
        e.isReq = true) ∧
    (∀ (base sinceS untilS : String) (oracle : Nat → Resp Commit)
        (fuel page reqIdx count : Nat),
      ∀ e ∈ (commitsGo base sinceS untilS oracle fuel page reqIdx count).2,
        e.isReq = true) ∧
    (∀ (base : String) (oracle : Nat → Resp Issue) (rid : Int)
        (k page reqIdx : Nat) (acc : Finset Issue) (items : List Issue),
      oracle reqIdx = Resp.ok items → items.isEmpty = false →
      issuesGo base oracle rid (k + 1) page reqIdx acc =
        ((issuesGo base oracle rid k (page + 1) (reqIdx + 1)
            (acc ∪ ((items.filter is_too_heated).map (stampIssue rid)).toFinset)).1,
          Ev.req page (issuesPageUrl base page) :: Ev.sleep 5 ::
            (issuesGo base oracle rid k (page + 1) (reqIdx + 1)
              (acc ∪ ((items.filter is_too_heated).map (stampIssue rid)).toFinset)).2)) ∧
    (∀ (base : String) (oracle : Nat → Resp Issue) (rid : Int)
        (k page reqIdx : Nat) (acc : Finset Issue),
      (oracle reqIdx).isFail = true →
      issuesGo base oracle rid (k + 1) page reqIdx acc =
        ((issuesGo base oracle rid k (page + 1) (reqIdx + 1) acc).1,
          Ev.req page (issuesPageUrl base page) ::
            (issuesGo base oracle rid k (page + 1) (reqIdx + 1) acc).2)) ∧
    (∀ (base : String) (oracle : Nat → Resp Issue) (rid : Int)
        (k page reqIdx : Nat) (acc : Finset Issue),
      oracle reqIdx = Resp.ok [] →
      issuesGo base oracle rid (k + 1) page reqIdx acc =
        (acc, [Ev.req page (issuesPageUrl base page)])) :=
  ⟨commentsGo_no_sleep, commitsGo_no_sleep, issuesGo_ok_step,
    issuesGo_fail_step, fun base oracle rid k page reqIdx acc h =>
      issuesGo_break_step base oracle rid k page reqIdx acc h⟩

/-- Concrete issue used by the C7 witness. -/
def issueW : Issue := ⟨10, "t", "d", none, "u", true, some "too heated", "closed"⟩

/-- C7 amended witness: an issue-walk step on a non-empty page emits
the 5-unit sleep, at a concrete oracle. -/
theorem c7_witness :
    issuesGo "u" (fun _ => Resp.ok [issueW]) 3 (0 + 1) 1 0 ∅ =
      ((issuesGo "u" (fun _ => Resp.ok [issueW]) 3 0 (1 + 1) (0 + 1)
          ((∅ : Finset Issue) ∪
            (([issueW].filter is_too_heated).map (stampIssue 3)).toFinset)).1,
        Ev.req 1 (issuesPageUrl "u" 1) :: Ev.sleep 5 ::
          (issuesGo "u" (fun _ => Resp.ok [issueW]) 3 0 (1 + 1) (0 + 1)
            ((∅ : Finset Issue) ∪
              (([issueW].filter is_too_heated).map (stampIssue 3)).toFinset)).2) :=
  c7_amended_sleep.2.2.1 "u" (fun _ => Resp.ok [issueW]) 3 0 1 0 ∅ [issueW]
    rfl (by decide)

end TooHeated
